import Mathlib

/-!
Verification of the PGImgSrv shared-memory pipeline components.

Shallow embedding of the repository's components:

* `PositionCombiner` (src/positioncombiner/PositionCombiner.cpp): the fan-in
  combiner built from N `Source<Position2D>` and one `Sink<Position2D>`.
  Its `connectToNodes()` and `process()` routines are modelled as pure
  functions producing the sequence of synchronization calls (an event trace)
  together with their return value and the value published downstream.
* `checkSamplePeriods` (declared in the shmemdf library; its body is not in
  the excerpt): modelled from the spec.
* `HomographyGenerator` (src/calibrator/HomographyGenerator.cpp): the
  data-point bookkeeping (`addDataPoint`, `removeDataPoint`) and
  `generateHomography`, with the OpenCV fitting routines abstracted as
  function parameters.
* `RandomAccel2D` (src/positiontester/RandomAccel2D.cpp): the constant
  acceleration kinematics step `simulateMotion` with the matrices of
  `createStaticMatracies`.

Real arithmetic (`double` in the source) is modelled with `ℚ`.
-/

namespace Oat

/-- The `NodeState` of the shared-memory `Node` header: `{INIT, RUNNING, END}`. -/
inductive NodeState : Type
  | INIT : NodeState
  | RUNNING : NodeState
  | END : NodeState
  deriving DecidableEq, Repr

/-- Modelled from the spec: `oat::checkSamplePeriods` is declared in the
shmemdf library, whose body is not part of the excerpt; only its caller
`PositionCombiner::connectToNodes` is.  Per spec §4.5 it is a pure function
over the advertised sample periods returning
`(consistent, effective_rate_hz)` with `effective_rate_hz = 1 / max(periods)`
(the slowest source governs the fused rate) and `consistent` true exactly
when the periods all agree. -/
def checkSamplePeriods : List ℚ → Bool × ℚ
  | [] => (true, 0)
  | t :: ts => (ts.all fun x => decide (x = t), 1 / ts.foldl max t)

/-- One synchronization event of the combiner, as issued by
`PositionCombiner::connectToNodes` and `PositionCombiner::process` on its
`n` upstream sources and its one downstream sink. -/
inductive Ev (n : Nat) : Type
  | touch (i : Fin n) : Ev n
  | connect (i : Fin n) : Ev n
  | retrievePeriod (i : Fin n) : Ev n
  | warn : Ev n
  | sinkBind : Ev n
  | sinkRetrieve : Ev n
  | srcWait (i : Fin n) (s : NodeState) : Ev n
  | srcClone (i : Fin n) : Ev n
  | srcPost (i : Fin n) : Ev n
  | combine : Ev n
  | sinkWait : Ev n
  | sinkWrite : Ev n
  | sinkPost : Ev n
  deriving DecidableEq, Repr

/-- The environment of one `process()` cycle: what `wait()` returns on each
upstream source this cycle, what `clone()` would copy out of each source's
shared slot, and what the downstream `Sink::wait()` returns (per spec §4.3,
`Sink::wait() -> NodeState`). -/
structure CycleInput (n : Nat) (T : Type) : Type where
  srcWait : Fin n → NodeState
  srcClone : Fin n → T
  sinkWait : NodeState

/-- The source-draining loop of `PositionCombiner::process` (the `for` loop
over `position_sources_`): for each index in order, `wait()`; on `END`
return immediately (second component `true`); otherwise `clone()` into the
local slot and `post()`.  Returns the event trace and whether `END` was
hit. -/
def drain {n : Nat} {T : Type} (inp : CycleInput n T) :
    List (Fin n) → List (Ev n) × Bool
  | [] => ([], false)
  | i :: rest =>
    if inp.srcWait i = NodeState.END then
      ([Ev.srcWait i NodeState.END], true)
    else
      let r := drain inp rest
      (Ev.srcWait i (inp.srcWait i) :: Ev.srcClone i :: Ev.srcPost i :: r.1, r.2)

/-- Model of `PositionCombiner::process()`: drain the sources in index order; if any
`wait()` returned `END`, return `true` at once.  Otherwise `combine` the
local copies, then on the sink: `wait()` (its returned `NodeState` is
discarded by the code), write the combined value through the shared slot,
`post()`, and return `false`.  Result: the returned boolean, the event
trace, and the value written to `*shared_position_` (`none` when the cycle
aborted before publishing). -/
def process {n : Nat} {T U : Type} (combineFn : (Fin n → T) → U)
    (inp : CycleInput n T) : Bool × List (Ev n) × Option U :=
  let d := drain inp (List.finRange n)
  if d.2 then
    (true, d.1, none)
  else
    (false, d.1 ++ [Ev.combine, Ev.sinkWait, Ev.sinkWrite, Ev.sinkPost],
      some (combineFn inp.srcClone))

/-- Model of `PositionCombiner::connectToNodes()`: `touch()` every source, then
`connect()` each and read its advertised period via `retrieve()`, then run
`checkSamplePeriods` (warning on inconsistency), then `bind()` the sink and
`retrieve()` the shared output slot.  `periods i` is the `period_sec`
advertised by source `i`. -/
def connectToNodes {n : Nat} (periods : Fin n → ℚ) : List (Ev n) :=
  ((List.finRange n).map Ev.touch)
    ++ ((List.finRange n).flatMap fun i => [Ev.connect i, Ev.retrievePeriod i])
    ++ (if (checkSamplePeriods ((List.finRange n).map periods)).1 then []
        else [Ev.warn])
    ++ [Ev.sinkBind, Ev.sinkRetrieve]

/-- The part of the `connectToNodes()` trace after the touch loop: the
connect/period-collection loop, the optional rate warning, and the sink
bind/retrieve. -/
def connectTail {n : Nat} (periods : Fin n → ℚ) : List (Ev n) :=
  ((List.finRange n).flatMap fun i => [Ev.connect i, Ev.retrievePeriod i])
    ++ (if (checkSamplePeriods ((List.finRange n).map periods)).1 then []
        else [Ev.warn])
    ++ [Ev.sinkBind, Ev.sinkRetrieve]

/-- A full run of the combiner: `connectToNodes()` followed by a sequence of
`process()` cycles. -/
def fullRun {n : Nat} {T U : Type} (periods : Fin n → ℚ)
    (combineFn : (Fin n → T) → U) (cycles : List (CycleInput n T)) :
    List (Ev n) :=
  connectToNodes periods ++ cycles.flatMap fun c => (process combineFn c).2.1

/-- Events issued on an upstream source (the `wait`/`clone`/`post` calls of
the draining loop). -/
def isSrcEvent {n : Nat} : Ev n → Bool
  | Ev.srcWait _ _ => true
  | Ev.srcClone _ => true
  | Ev.srcPost _ => true
  | _ => false

/-- A trace containing no `wait`/`write`/`post` on the downstream sink. -/
def sinkFree {n : Nat} (l : List (Ev n)) : Bool :=
  l.all fun e =>
    match e with
    | Ev.sinkWait => false
    | Ev.sinkWrite => false
    | Ev.sinkPost => false
    | _ => true

/-- State of the sink's write window after running a trace: `true` when a
`Sink::wait()` has been issued and its matching `Sink::post()` has not. -/
def winAfter {n : Nat} : Bool → List (Ev n) → Bool
  | b, [] => b
  | _, Ev.sinkWait :: r => winAfter true r
  | _, Ev.sinkPost :: r => winAfter false r
  | b, _ :: r => winAfter b r

/-- Predicate `writesOk b l` holds when every write through the sink's shared slot in
`l` happens while the sink's write window is open (strictly between a
`Sink::wait()` and the matching `Sink::post()`), starting from window state
`b`. -/
def writesOk {n : Nat} : Bool → List (Ev n) → Bool
  | _, [] => true
  | _, Ev.sinkWait :: r => writesOk true r
  | _, Ev.sinkPost :: r => writesOk false r
  | b, Ev.sinkWrite :: r => b && writesOk b r
  | b, _ :: r => writesOk b r

/-- A concrete cycle with one upstream source: the source reports `RUNNING`
with payload `7`, while the downstream sink's `wait()` reports `END`. -/
def sinkEndCycle : CycleInput 1 Nat :=
  { srcWait := fun _ => NodeState.RUNNING
    srcClone := fun _ => 7
    sinkWait := NodeState.END }

/-- A concrete cycle with two upstream sources, the second reporting
`END`. -/
def endCycle : CycleInput 2 Nat :=
  { srcWait := fun i => if i = 1 then NodeState.END else NodeState.RUNNING
    srcClone := fun i => i.val
    sinkWait := NodeState.RUNNING }

/-- A concrete cycle with two upstream sources, both reporting `RUNNING`
with payloads `3` and `4`. -/
def runCycle : CycleInput 2 Nat :=
  { srcWait := fun _ => NodeState.RUNNING
    srcClone := fun i => i.val + 3
    sinkWait := NodeState.RUNNING }

/-! Definitions for HomographyGenerator (src/calibrator/HomographyGenerator.cpp) -/

/-- A 2D point (`cv::Point2f`), coordinates modelled with `ℚ`. -/
abbrev Point : Type := ℚ × ℚ

/-- A `cv::Mat` holding a homography, as a list of rows; `[]` is the empty
matrix (`cv::Mat::empty()`). -/
abbrev Mat : Type := List (List ℚ)

/-- The `HomographyGenerator::EstimationMethod` selector. -/
inductive EstimationMethod : Type
  | ROBUST : EstimationMethod
  | REGULAR : EstimationMethod
  | EXACT : EstimationMethod
  deriving DecidableEq, Repr

/-- The mutable fields of `HomographyGenerator` the modelled member
functions touch: the paired pixel and world-point data sets, the current
homography, its validity flag, and the selected estimation method. -/
structure HGState : Type where
  pixels : List Point
  worldPoints : List Point
  homography : Mat
  homographyValid : Bool
  method : EstimationMethod
  deriving DecidableEq, Repr

/-- Model of `HomographyGenerator::addDataPoint()`.  Inputs that the member function
reads from the environment: `clicked` (`clicked_`), `mousePt` (`mouse_pt_`),
and `worldIn`, the pair of world coordinates read from `std::cin`
(`none` models a failed numerical extraction, which throws and is caught,
returning `-1`).  Returns the `int` result and the updated state. -/
def addDataPoint (clicked : Bool) (mousePt : Point) (worldIn : Option Point)
    (s : HGState) : Int × HGState :=
  if ¬clicked then (-1, s)
  else if mousePt ∈ s.pixels then (-1, s)
  else
    match worldIn with
    | none => (-1, s)
    | some w =>
      if w ∈ s.worldPoints then (-1, s)
      else (0, { s with pixels := s.pixels ++ [mousePt],
                        worldPoints := s.worldPoints ++ [w] })

/-- Model of `HomographyGenerator::removeDataPoint()`.  `idxIn` is the index read
from `std::cin` (`none` models a failed extraction: "Delete mode
terminated", return `-1`; `point_size_t` is unsigned, so the index is a
`Nat` and the source's `idx < 0` test is never true).  Out-of-bounds
indices are rejected; otherwise the same index is erased from both
vectors. -/
def removeDataPoint (idxIn : Option Nat) (s : HGState) : Int × HGState :=
  match idxIn with
  | none => (-1, s)
  | some idx =>
    if idx ≥ s.pixels.length then (-1, s)
    else (0, { s with pixels := s.pixels.eraseIdx idx,
                      worldPoints := s.worldPoints.eraseIdx idx })

/-- The tail of `HomographyGenerator::generateHomography()` after
`homography_` has been assigned: if the computed matrix is non-empty, set
`homography_valid_` and return `0`; otherwise report failure and return
`-1` (the validity flag is left as it was). -/
def finishHomography (s : HGState) : Int × HGState :=
  if s.homography ≠ [] then (0, { s with homographyValid := true })
  else (-1, s)

/-- Model of `HomographyGenerator::generateHomography()`.  The OpenCV estimation
routines are external collaborators and are taken as parameters:
`findHomographyRANSAC` and `findHomographyLS` are
`cv::findHomography(pixels_, world_points_, cv::RANSAC)` and
`cv::findHomography(pixels_, world_points_, 0)`; `getPerspectiveTransform`
is `cv::getPerspectiveTransform(pixels_, world_points_)`.  Fewer than 4
points: error, state untouched.  `EXACT` with other than 4 points: error,
state untouched.  Otherwise the selected routine's result is stored in
`homography_` and `finishHomography` runs. -/
def generateHomography (findHomographyRANSAC : List Point → List Point → Mat)
    (findHomographyLS : List Point → List Point → Mat)
    (getPerspectiveTransform : List Point → List Point → Mat)
    (s : HGState) : Int × HGState :=
  if s.pixels.length < 4 then (-1, s)
  else
    match s.method with
    | EstimationMethod.ROBUST =>
      finishHomography
        { s with homography := findHomographyRANSAC s.pixels s.worldPoints }
    | EstimationMethod.REGULAR =>
      finishHomography
        { s with homography := findHomographyLS s.pixels s.worldPoints }
    | EstimationMethod.EXACT =>
      if s.pixels.length ≠ 4 then (-1, s)
      else
        finishHomography
          { s with homography := getPerspectiveTransform s.pixels s.worldPoints }

/-- The matrix `generateHomography` would store for the current method and
data set (the value assigned to `homography_` when no early return fires). -/
def fittedMat (findHomographyRANSAC : List Point → List Point → Mat)
    (findHomographyLS : List Point → List Point → Mat)
    (getPerspectiveTransform : List Point → List Point → Mat)
    (s : HGState) : Mat :=
  match s.method with
  | EstimationMethod.ROBUST => findHomographyRANSAC s.pixels s.worldPoints
  | EstimationMethod.REGULAR => findHomographyLS s.pixels s.worldPoints
  | EstimationMethod.EXACT => getPerspectiveTransform s.pixels s.worldPoints

/-! Definitions for RandomAccel2D (src/positiontester/RandomAccel2D.cpp) -/

/-- The state transition matrix built by
`RandomAccel2D::createStaticMatracies`, with `dt` the
`sample_period_in_seconds`.  The simulation state vector is
`(x, x', y, y')`. -/
def state_transition_mat (dt : ℚ) : Matrix (Fin 4) (Fin 4) ℚ :=
  !![1, dt, 0, 0;
     0, 1, 0, 0;
     0, 0, 1, dt;
     0, 0, 0, 1]

/-- The input matrix built by `RandomAccel2D::createStaticMatracies`,
mapping the acceleration vector `(a_x, a_y)` into the state update. -/
def input_mat (dt : ℚ) : Matrix (Fin 4) (Fin 2) ℚ :=
  !![dt * dt / 2, 0;
     dt, 0;
     0, dt * dt / 2;
     0, dt]

/-- Model of `RandomAccel2D::simulateMotion()`:
`state = state_transition_mat * state + input_mat * accel_vec`, where
`accel_vec` holds the two freshly drawn accelerations (the random draw is
modelled by passing the drawn values in). -/
def simulateMotion (dt : ℚ) (state : Fin 4 → ℚ) (accel_vec : Fin 2 → ℚ) :
    Fin 4 → ℚ :=
  (state_transition_mat dt).mulVec state + (input_mat dt).mulVec accel_vec

/-! Lemmas about the draining loop -/

lemma drain_eq_of_not_end {n : Nat} {T : Type} (inp : CycleInput n T)
    (l : List (Fin n)) (h : ∀ i ∈ l, inp.srcWait i ≠ NodeState.END) :
    drain inp l =
      (l.flatMap fun i =>
        [Ev.srcWait i (inp.srcWait i), Ev.srcClone i, Ev.srcPost i], false) := by
  induction l with
  | nil => simp [drain]
  | cons i rest ih =>
    have hi := h i (List.mem_cons_self _ _)
    have hrest := ih fun j hj => h j (List.mem_cons_of_mem _ hj)
    simp [drain, hi, hrest]

lemma drain_ended_of_end {n : Nat} {T : Type} (inp : CycleInput n T)
    (l : List (Fin n)) (i : Fin n) (hi : i ∈ l)
    (hEnd : inp.srcWait i = NodeState.END) : (drain inp l).2 = true := by
  induction l with
  | nil => cases hi
  | cons j rest ih =>
    by_cases hj : inp.srcWait j = NodeState.END
    · simp [drain, hj]
    · rcases List.mem_cons.mp hi with h | h
      · exact absurd (h ▸ hEnd) hj
      · simp [drain, hj, ih h]

lemma drain_src_only {n : Nat} {T : Type} (inp : CycleInput n T)
    (l : List (Fin n)) : ∀ e ∈ (drain inp l).1, isSrcEvent e = true := by
  induction l with
  | nil => simp [drain]
  | cons j rest ih =>
    intro e he
    by_cases hj : inp.srcWait j = NodeState.END
    · simp [drain, hj] at he
      simp [he, isSrcEvent]
    · simp [drain, hj] at he
      rcases he with rfl | rfl | rfl | he
      · rfl
      · rfl
      · rfl
      · exact ih e he

/-- C1: if `wait()` on any one of the N upstream sources returns `END`,
`PositionCombiner::process()` returns `true` immediately, without calling
`wait()` or `post()` on the downstream sink and without writing the shared
output value for that cycle. -/
theorem C1_end_propagation {n : Nat} {T U : Type}
    (combineFn : (Fin n → T) → U) (inp : CycleInput n T)
    (h : ∃ i, inp.srcWait i = NodeState.END) :
    (process combineFn inp).1 = true ∧
    (process combineFn inp).2.2 = none ∧
    Ev.sinkWait ∉ (process combineFn inp).2.1 ∧
    Ev.sinkWrite ∉ (process combineFn inp).2.1 ∧
    Ev.sinkPost ∉ (process combineFn inp).2.1 := by
  obtain ⟨i, hi⟩ := h
  have hend : (drain inp (List.finRange n)).2 = true :=
    drain_ended_of_end inp _ i (List.mem_finRange i) hi
  have hsrc := drain_src_only inp (List.finRange n)
  refine ⟨by simp [process, hend], by simp [process, hend], ?_, ?_, ?_⟩ <;>
  · intro hmem
    have := hsrc _ (by simpa [process, hend] using hmem)
    simp [isSrcEvent] at this

/-- C1 witness: with two upstream sources whose second `wait()` reports
`END`, `process()` returns `true`, publishes nothing, and issues no sink
call. -/
theorem C1_end_propagation_witness :
    (∃ i, endCycle.srcWait i = NodeState.END) ∧
    ((process (fun f => f 0 + f 1) endCycle).1 = true ∧
     (process (fun f => f 0 + f 1) endCycle).2.2 = none ∧
     Ev.sinkWait ∉ (process (fun f => f 0 + f 1) endCycle).2.1 ∧
     Ev.sinkWrite ∉ (process (fun f => f 0 + f 1) endCycle).2.1 ∧
     Ev.sinkPost ∉ (process (fun f => f 0 + f 1) endCycle).2.1) :=
  ⟨⟨1, by decide⟩, C1_end_propagation (fun f => f 0 + f 1) endCycle ⟨1, by decide⟩⟩

/-- C3: in a completed cycle, the sources are drained in index order
`0..N-1`, each observing `wait()`, then `clone()`, then `post()` (the clone
strictly inside that source's wait/post window); the combine function is
applied to the N local copies only after all sources are drained, and the
downstream publish happens only after the combine. -/
theorem C3_cycle_order {n : Nat} {T U : Type}
    (combineFn : (Fin n → T) → U) (inp : CycleInput n T)
    (h : ∀ i, inp.srcWait i ≠ NodeState.END) :
    process combineFn inp =
      (false,
       ((List.finRange n).flatMap fun i =>
          [Ev.srcWait i (inp.srcWait i), Ev.srcClone i, Ev.srcPost i])
         ++ [Ev.combine, Ev.sinkWait, Ev.sinkWrite, Ev.sinkPost],
       some (combineFn inp.srcClone)) := by
  have hd := drain_eq_of_not_end inp (List.finRange n) fun i _ => h i
  simp [process, hd]

/-- C3 witness: with two `RUNNING` sources carrying `3` and `4`, the cycle's
trace is exactly wait/clone/post on source 0, wait/clone/post on source 1,
combine, then the sink's wait/write/post, and the published value is `7`. -/
theorem C3_cycle_order_witness :
    (∀ i, runCycle.srcWait i ≠ NodeState.END) ∧
    process (fun f => f 0 + f 1) runCycle =
      (false,
       [Ev.srcWait 0 NodeState.RUNNING, Ev.srcClone 0, Ev.srcPost 0,
        Ev.srcWait 1 NodeState.RUNNING, Ev.srcClone 1, Ev.srcPost 1,
        Ev.combine, Ev.sinkWait, Ev.sinkWrite, Ev.sinkPost],
       some 7) := by
  have h : ∀ i, runCycle.srcWait i ≠ NodeState.END := by decide
  refine ⟨h, ?_⟩
  rw [C3_cycle_order (fun f => f 0 + f 1) runCycle h]
  rfl

/-- C4 (counter-evidence): `process()` does not return `true` when the
downstream sink reports `END`.  With one `RUNNING` upstream source and the
sink's `wait()` returning `END`, the cycle completes, the combined value is
still published, and `process()` returns `false`: the code discards the
sink's `wait()` result, contradicting its own closing comment "Sink was not
at END state". -/
theorem C4_sink_end_not_propagated :
    sinkEndCycle.sinkWait = NodeState.END ∧
    (process (fun f => f 0) sinkEndCycle).1 = false ∧
    (process (fun f => f 0) sinkEndCycle).2.2 = some 7 := by
  refine ⟨rfl, ?_, ?_⟩ <;> rfl

/-! Lemmas about the connection phase -/

lemma connectToNodes_eq {n : Nat} (periods : Fin n → ℚ) :
    connectToNodes periods =
      ((List.finRange n).map Ev.touch) ++ connectTail periods := by
  simp [connectToNodes, connectTail]

lemma touch_not_in_connectTail {n : Nat} (periods : Fin n → ℚ) (i : Fin n) :
    Ev.touch i ∉ connectTail periods := by
  intro h
  simp only [connectTail, List.mem_append, List.mem_flatMap, List.mem_cons,
    List.mem_singleton, List.not_mem_nil] at h
  rcases h with (⟨j, _, h | h | h⟩ | h) | h | h <;> simp at h

/-- C5: rate inconsistency during `connectToNodes()` only produces a
warning; the sink is still bound and the shared output slot retrieved, and
`connectToNodes` never fails because of the inconsistency (its trace always
ends with the sink bind/retrieve). -/
theorem C5_rate_mismatch_nonfatal {n : Nat} (periods : Fin n → ℚ)
    (h : (checkSamplePeriods ((List.finRange n).map periods)).1 = false) :
    Ev.warn ∈ connectToNodes periods ∧
    ∃ pre, connectToNodes periods = pre ++ [Ev.sinkBind, Ev.sinkRetrieve] := by
  constructor
  · simp [connectToNodes, h]
  · refine ⟨((List.finRange n).map Ev.touch)
      ++ ((List.finRange n).flatMap fun i => [Ev.connect i, Ev.retrievePeriod i])
      ++ [Ev.warn], ?_⟩
    simp [connectToNodes, h]

/-- C5 witness: with two sources advertising periods `1` and `2`, the
checker reports inconsistency, yet the trace contains the warning and still
ends with the sink bind and retrieve. -/
theorem C5_rate_mismatch_nonfatal_witness :
    (checkSamplePeriods ((List.finRange 2).map ![(1 : ℚ), 2])).1 = false ∧
    (Ev.warn ∈ connectToNodes ![(1 : ℚ), 2] ∧
     ∃ pre, connectToNodes ![(1 : ℚ), 2] =
       pre ++ [Ev.sinkBind, Ev.sinkRetrieve]) :=
  ⟨by decide, C5_rate_mismatch_nonfatal ![(1 : ℚ), 2] (by decide)⟩

lemma touch_pos_lt {n : Nat} (periods : Fin n → ℚ) (k : ℕ) (i : Fin n)
    (h : (connectToNodes periods)[k]? = some (Ev.touch i)) : k < n := by
  by_contra hk
  push_neg at hk
  rw [connectToNodes_eq,
    List.getElem?_append_right (by simpa using hk)] at h
  exact touch_not_in_connectTail periods i (List.getElem?_mem h)

lemma connect_pos_ge {n : Nat} (periods : Fin n → ℚ) (k : ℕ) (j : Fin n)
    (h : (connectToNodes periods)[k]? = some (Ev.connect j)) : n ≤ k := by
  by_contra hk
  push_neg at hk
  rw [connectToNodes_eq,
    List.getElem?_append_left (by simpa using hk)] at h
  have hm := List.getElem?_mem h
  simp [List.mem_map] at hm

/-- C6: in the `connectToNodes()` trace, every `touch()` event precedes
every `connect()` event: a `connect()` is never issued before all sources
are touched. -/
theorem C6_touch_before_connect {n : Nat} (periods : Fin n → ℚ)
    (k₁ k₂ : ℕ) (i j : Fin n)
    (h₁ : (connectToNodes periods)[k₁]? = some (Ev.touch i))
    (h₂ : (connectToNodes periods)[k₂]? = some (Ev.connect j)) : k₁ < k₂ :=
  lt_of_lt_of_le (touch_pos_lt periods k₁ i h₁) (connect_pos_ge periods k₂ j h₂)

/-- C6 witness: with one source of period `1`, `touch 0` sits at position 0
and `connect 0` at position 1 of the trace, and the theorem yields
`0 < 1`. -/
theorem C6_touch_before_connect_witness :
    (connectToNodes (fun _ : Fin 1 => (1 : ℚ)))[0]? = some (Ev.touch 0) ∧
    (connectToNodes (fun _ : Fin 1 => (1 : ℚ)))[1]? = some (Ev.connect 0) ∧
    (0 : ℕ) < 1 :=
  ⟨by decide, by decide,
   C6_touch_before_connect (fun _ : Fin 1 => (1 : ℚ)) 0 1 0 0
     (by decide) (by decide)⟩

/-! Lemmas about the sink write window -/

lemma winAfter_append {n : Nat} (b : Bool) (l₁ l₂ : List (Ev n)) :
    winAfter b (l₁ ++ l₂) = winAfter (winAfter b l₁) l₂ := by
  induction l₁ generalizing b with
  | nil => rfl
  | cons e r ih => cases e <;> simp [winAfter, ih]

lemma writesOk_append {n : Nat} (b : Bool) (l₁ l₂ : List (Ev n)) :
    writesOk b (l₁ ++ l₂) = (writesOk b l₁ && writesOk (winAfter b l₁) l₂) := by
  induction l₁ generalizing b with
  | nil => rfl
  | cons e r ih => cases e <;> simp [writesOk, winAfter, ih, Bool.and_assoc]

lemma winAfter_of_sinkFree {n : Nat} (l : List (Ev n)) :
    sinkFree l = true → ∀ b, winAfter b l = b := by
  induction l with
  | nil => intro _ _; rfl
  | cons e r ih =>
    intro h b
    rw [sinkFree, List.all_cons, Bool.and_eq_true] at h
    have hr := ih h.2
    have h1 := h.1
    cases e <;> simp only [winAfter] <;>
      first
        | exact hr _
        | exact absurd h1 Bool.false_ne_true

lemma writesOk_of_sinkFree {n : Nat} (l : List (Ev n)) :
    sinkFree l = true → ∀ b, writesOk b l = true := by
  induction l with
  | nil => intro _ _; rfl
  | cons e r ih =>
    intro h b
    rw [sinkFree, List.all_cons, Bool.and_eq_true] at h
    have hr := ih h.2
    have h1 := h.1
    cases e <;> simp only [writesOk] <;>
      first
        | exact hr _
        | exact absurd h1 Bool.false_ne_true

lemma sinkFree_drain {n : Nat} {T : Type} (inp : CycleInput n T)
    (l : List (Fin n)) : sinkFree (drain inp l).1 = true := by
  induction l with
  | nil => rfl
  | cons j rest ih =>
    by_cases hj : inp.srcWait j = NodeState.END <;>
      simp_all [drain, hj, sinkFree]

lemma sinkFree_connectToNodes {n : Nat} (periods : Fin n → ℚ) :
    sinkFree (connectToNodes periods) = true := by
  rw [sinkFree, List.all_eq_true]
  intro e he
  rw [connectToNodes] at he
  rcases List.mem_append.mp he with h | h
  · rcases List.mem_append.mp h with h | h
    · rcases List.mem_append.mp h with h | h
      · obtain ⟨i, _, rfl⟩ := List.mem_map.mp h
        rfl
      · obtain ⟨i, _, hm⟩ := List.mem_flatMap.mp h
        rcases List.mem_cons.mp hm with rfl | hm
        · rfl
        rcases List.mem_cons.mp hm with rfl | hm
        · rfl
        · cases hm
    · split at h
      · cases h
      · rcases List.mem_cons.mp h with rfl | h
        · rfl
        · cases h
  · rcases List.mem_cons.mp h with rfl | h
    · rfl
    rcases List.mem_cons.mp h with rfl | h
    · rfl
    · cases h

lemma process_writesOk {n : Nat} {T U : Type} (combineFn : (Fin n → T) → U)
    (c : CycleInput n T) :
    writesOk false (process combineFn c).2.1 = true ∧
    winAfter false (process combineFn c).2.1 = false := by
  have hfree := sinkFree_drain c (List.finRange n)
  by_cases hend : (drain c (List.finRange n)).2 = true
  · simp [process, hend, writesOk_of_sinkFree _ hfree _,
      winAfter_of_sinkFree _ hfree _]
  · simp only [process, Bool.not_eq_true] at hend ⊢
    rw [hend]
    simp only [if_neg Bool.false_ne_true, writesOk_append, winAfter_append,
      writesOk_of_sinkFree _ hfree _, winAfter_of_sinkFree _ hfree _]
    simp [writesOk, winAfter]

lemma cycles_writesOk {n : Nat} {T U : Type} (combineFn : (Fin n → T) → U)
    (cycles : List (CycleInput n T)) :
    writesOk false (cycles.flatMap fun c => (process combineFn c).2.1) = true ∧
    winAfter false (cycles.flatMap fun c => (process combineFn c).2.1)
      = false := by
  induction cycles with
  | nil => exact ⟨rfl, rfl⟩
  | cons c rest ih =>
    have hc := process_writesOk combineFn c
    simp [List.flatMap_cons, writesOk_append, winAfter_append, hc.1, hc.2,
      ih.1, ih.2]

/-- C7: over any full run of the combiner (connection phase plus any number
of cycles), every write through the sink's shared slot happens strictly
inside a window opened by `Sink::wait()` and closed by the matching
`Sink::post()`; and in every completed cycle the derived value is published,
the trace ending with `wait`, `write`, `post` on the sink. -/
theorem C7_write_inside_window {n : Nat} {T U : Type} (periods : Fin n → ℚ)
    (combineFn : (Fin n → T) → U) (cycles : List (CycleInput n T)) :
    writesOk false (fullRun periods combineFn cycles) = true ∧
    ∀ inp : CycleInput n T, (∀ i, inp.srcWait i ≠ NodeState.END) →
      (process combineFn inp).2.2 = some (combineFn inp.srcClone) ∧
      ∃ pre, (process combineFn inp).2.1 =
        pre ++ [Ev.sinkWait, Ev.sinkWrite, Ev.sinkPost] := by
  constructor
  · have hconn := sinkFree_connectToNodes periods
    have hcyc := cycles_writesOk combineFn cycles
    simp [fullRun, writesOk_append, winAfter_append,
      writesOk_of_sinkFree _ hconn _, winAfter_of_sinkFree _ hconn _,
      hcyc.1]
  · intro inp h
    have hd := drain_eq_of_not_end inp (List.finRange n) fun i _ => h i
    constructor
    · simp [process, hd]
    · refine ⟨((List.finRange n).flatMap fun i =>
        [Ev.srcWait i (inp.srcWait i), Ev.srcClone i, Ev.srcPost i])
          ++ [Ev.combine], ?_⟩
      simp [process, hd]

/-- C7 witness: a run with one source of period `1` and no cycle satisfies
the window property, and a concrete completed cycle publishes `7` with the
sink's wait/write/post as the trace's last three events. -/
theorem C7_write_inside_window_witness :
    writesOk false (fullRun (fun _ : Fin 1 => (1 : ℚ))
      (fun f : Fin 1 → Nat => f 0) []) = true ∧
    (∀ i, sinkEndCycle.srcWait i ≠ NodeState.END) ∧
    (process (fun f : Fin 1 → Nat => f 0) sinkEndCycle).2.2 = some 7 ∧
    ∃ pre, (process (fun f : Fin 1 → Nat => f 0) sinkEndCycle).2.1 =
      pre ++ [Ev.sinkWait, Ev.sinkWrite, Ev.sinkPost] := by
  have h := C7_write_inside_window (fun _ : Fin 1 => (1 : ℚ))
    (fun f : Fin 1 → Nat => f 0) []
  have h2 := h.2 sinkEndCycle (by decide)
  exact ⟨h.1, by decide, h2.1, h2.2⟩

/-! Lemmas and theorem for the sample-rate consistency checker -/

lemma foldl_max_mem (ts : List ℚ) (t : ℚ) : ts.foldl max t ∈ t :: ts := by
  induction ts generalizing t with
  | nil => simp
  | cons x xs ih =>
    rw [List.foldl_cons]
    rcases List.mem_cons.mp (ih (max t x)) with h | h
    · rw [h]
      rcases max_choice t x with hm | hm <;> rw [hm]
      · exact List.mem_cons_self _ _
      · exact List.mem_cons_of_mem _ (List.mem_cons_self _ _)
    · exact List.mem_cons_of_mem _ (List.mem_cons_of_mem _ h)

lemma init_le_foldl_max (ts : List ℚ) (t : ℚ) : t ≤ ts.foldl max t := by
  induction ts generalizing t with
  | nil => simp
  | cons x xs ih =>
    exact le_trans (le_max_left t x) (by simpa using ih (max t x))

lemma le_foldl_max (ts : List ℚ) (t : ℚ) :
    ∀ x ∈ t :: ts, x ≤ ts.foldl max t := by
  induction ts generalizing t with
  | nil => simp
  | cons y ys ih =>
    intro x hx
    rw [List.foldl_cons]
    rcases List.mem_cons.mp hx with h | h
    · subst h
      exact le_trans (le_max_left x y) (init_le_foldl_max ys (max x y))
    · rcases List.mem_cons.mp h with h | h
      · subst h
        exact le_trans (le_max_right t x) (init_le_foldl_max ys (max t x))
      · exact ih (max t y) x (List.mem_cons_of_mem _ h)

/-- C2: for every non-empty period list, `checkSamplePeriods` reports
consistency exactly when all periods agree, and reports
`effective_rate_hz = 1 / max(periods)`; on `{0.01, 0.01, 0.02}` it yields
`(false, 50)` and on `{0.02, 0.025}` it yields rate `40`. -/
theorem C2_checkSamplePeriods_spec (t : ℚ) (ts : List ℚ) :
    ((checkSamplePeriods (t :: ts)).1 = true ↔ ∀ x ∈ t :: ts, x = t) ∧
    (∃ m, m ∈ t :: ts ∧ (∀ x ∈ t :: ts, x ≤ m) ∧
      (checkSamplePeriods (t :: ts)).2 = 1 / m) ∧
    checkSamplePeriods [1/100, 1/100, 1/50] = (false, 50) ∧
    (checkSamplePeriods [1/50, 1/40]).2 = 40 := by
  refine ⟨?_, ⟨ts.foldl max t, foldl_max_mem ts t, le_foldl_max ts t, rfl⟩,
    ?_, ?_⟩
  · simp [checkSamplePeriods]
  · norm_num [checkSamplePeriods]
  · norm_num [checkSamplePeriods]

/-! Theorems about the HomographyGenerator -/

/-- C8: `addDataPoint` either appends exactly one point to each of
`pixels_` and `world_points_` or leaves both unchanged; `removeDataPoint`
either erases the same index from both or leaves both unchanged; hence both
preserve `pixels_.size() == world_points_.size()`. -/
theorem C8_paired_data_invariant (clicked : Bool) (mousePt : Point)
    (worldIn : Option Point) (idxIn : Option Nat) (s : HGState) :
    ((∃ w, worldIn = some w ∧
        (addDataPoint clicked mousePt worldIn s).2.pixels
          = s.pixels ++ [mousePt] ∧
        (addDataPoint clicked mousePt worldIn s).2.worldPoints
          = s.worldPoints ++ [w]) ∨
      (addDataPoint clicked mousePt worldIn s).2 = s) ∧
    ((∃ idx, idxIn = some idx ∧ idx < s.pixels.length ∧
        (removeDataPoint idxIn s).2.pixels = s.pixels.eraseIdx idx ∧
        (removeDataPoint idxIn s).2.worldPoints
          = s.worldPoints.eraseIdx idx) ∨
      (removeDataPoint idxIn s).2 = s) ∧
    (s.pixels.length = s.worldPoints.length →
      (addDataPoint clicked mousePt worldIn s).2.pixels.length
        = (addDataPoint clicked mousePt worldIn s).2.worldPoints.length ∧
      (removeDataPoint idxIn s).2.pixels.length
        = (removeDataPoint idxIn s).2.worldPoints.length) := by
  have hadd : (∃ w, worldIn = some w ∧
      (addDataPoint clicked mousePt worldIn s).2.pixels
        = s.pixels ++ [mousePt] ∧
      (addDataPoint clicked mousePt worldIn s).2.worldPoints
        = s.worldPoints ++ [w]) ∨
      (addDataPoint clicked mousePt worldIn s).2 = s := by
    unfold addDataPoint
    rcases clicked with _ | _
    · exact Or.inr rfl
    rcases worldIn with _ | w
    · by_cases hpx : mousePt ∈ s.pixels <;> simp [hpx]
    by_cases hpx : mousePt ∈ s.pixels
    · simp [hpx]
    by_cases hw : w ∈ s.worldPoints
    · simp [hpx, hw]
    · exact Or.inl ⟨w, rfl, by simp [hpx, hw], by simp [hpx, hw]⟩
  have hrem : (∃ idx, idxIn = some idx ∧ idx < s.pixels.length ∧
      (removeDataPoint idxIn s).2.pixels = s.pixels.eraseIdx idx ∧
      (removeDataPoint idxIn s).2.worldPoints
        = s.worldPoints.eraseIdx idx) ∨
      (removeDataPoint idxIn s).2 = s := by
    unfold removeDataPoint
    rcases idxIn with _ | idx
    · exact Or.inr rfl
    by_cases hidx : idx ≥ s.pixels.length
    · simp [hidx]
    · exact Or.inl ⟨idx, rfl, by omega, by simp [hidx], by simp [hidx]⟩
  refine ⟨hadd, hrem, fun hlen => ⟨?_, ?_⟩⟩
  · rcases hadd with ⟨w, _, hp, hw⟩ | heq
    · simp [hp, hw, hlen]
    · simp [heq, hlen]
  · rcases hrem with ⟨idx, _, hlt, hp, hw⟩ | heq
    · simp [hp, hw, List.length_eraseIdx, hlt, hlen ▸ hlt, hlen]
    · simp [heq, hlen]

/-- C8 witness: on a one-point state with equal-length data sets, a
successful `addDataPoint` appends to both vectors and a successful
`removeDataPoint` erases index 0 from both, and the lengths stay equal. -/
theorem C8_paired_data_invariant_witness :
    (let s : HGState :=
      { pixels := [((0 : ℚ), (0 : ℚ))], worldPoints := [((5 : ℚ), (5 : ℚ))],
        homography := [], homographyValid := false,
        method := EstimationMethod.ROBUST }
     ((∃ w, some ((1 : ℚ), (1 : ℚ)) = some w ∧
        (addDataPoint true ((2 : ℚ), (2 : ℚ)) (some ((1 : ℚ), (1 : ℚ))) s).2.pixels
          = s.pixels ++ [((2 : ℚ), (2 : ℚ))] ∧
        (addDataPoint true ((2 : ℚ), (2 : ℚ)) (some ((1 : ℚ), (1 : ℚ))) s).2.worldPoints
          = s.worldPoints ++ [w]) ∨
       (addDataPoint true ((2 : ℚ), (2 : ℚ)) (some ((1 : ℚ), (1 : ℚ))) s).2 = s) ∧
     ((∃ idx, (some 0 : Option Nat) = some idx ∧ idx < s.pixels.length ∧
        (removeDataPoint (some 0) s).2.pixels = s.pixels.eraseIdx idx ∧
        (removeDataPoint (some 0) s).2.worldPoints
          = s.worldPoints.eraseIdx idx) ∨
       (removeDataPoint (some 0) s).2 = s) ∧
     (s.pixels.length = s.worldPoints.length →
       (addDataPoint true ((2 : ℚ), (2 : ℚ)) (some ((1 : ℚ), (1 : ℚ))) s).2.pixels.length
         = (addDataPoint true ((2 : ℚ), (2 : ℚ)) (some ((1 : ℚ), (1 : ℚ))) s).2.worldPoints.length ∧
       (removeDataPoint (some 0) s).2.pixels.length
         = (removeDataPoint (some 0) s).2.worldPoints.length)) :=
  C8_paired_data_invariant true ((2 : ℚ), (2 : ℚ)) (some ((1 : ℚ), (1 : ℚ)))
    (some 0)
    { pixels := [((0 : ℚ), (0 : ℚ))], worldPoints := [((5 : ℚ), (5 : ℚ))],
      homography := [], homographyValid := false,
      method := EstimationMethod.ROBUST }

/-- C9: `generateHomography` returns `-1` with the state untouched when
fewer than 4 data points are present, and also, under `EXACT`, when the
count is not exactly 4; when the fit does run (starting from an invalid
homography), the validity flag becomes true exactly when the computed
matrix is non-empty. -/
theorem C9_generateHomography_guards
    (fR fLS gPT : List Point → List Point → Mat) (s : HGState) :
    (s.pixels.length < 4 → generateHomography fR fLS gPT s = (-1, s)) ∧
    (s.method = EstimationMethod.EXACT → s.pixels.length ≠ 4 →
      generateHomography fR fLS gPT s = (-1, s)) ∧
    (s.homographyValid = false → 4 ≤ s.pixels.length →
      (s.method = EstimationMethod.EXACT → s.pixels.length = 4) →
      ((generateHomography fR fLS gPT s).2.homographyValid = true ↔
        fittedMat fR fLS gPT s ≠ [])) := by
  refine ⟨fun hlt => ?_, fun hm hne => ?_, fun hv hge hex => ?_⟩
  · rw [generateHomography, if_pos hlt]
  · rw [generateHomography]
    by_cases hlt : s.pixels.length < 4
    · rw [if_pos hlt]
    · rw [if_neg hlt, hm, if_pos hne]
  · have hlt : ¬s.pixels.length < 4 := by omega
    rw [generateHomography, if_neg hlt, fittedMat]
    cases hmeth : s.method with
    | ROBUST =>
      by_cases hemp : fR s.pixels s.worldPoints = [] <;>
        simp [finishHomography, hemp, hv]
    | REGULAR =>
      by_cases hemp : fLS s.pixels s.worldPoints = [] <;>
        simp [finishHomography, hemp, hv]
    | EXACT =>
      rw [if_neg (by simp [hex hmeth])]
      by_cases hemp : gPT s.pixels s.worldPoints = [] <;>
        simp [finishHomography, hemp, hv]

/-- C9 witness: on a 4-point `EXACT` state with an invalid homography, a
perspective-transform routine returning a non-empty matrix makes the
validity flag true, while fewer than 4 points would return `-1`
untouched. -/
theorem C9_generateHomography_guards_witness :
    (let s : HGState :=
      { pixels := [((0 : ℚ), 0), (1, 0), (0, 1), (1, 1)],
        worldPoints := [((0 : ℚ), 0), (2, 0), (0, 2), (2, 2)],
        homography := [], homographyValid := false,
        method := EstimationMethod.EXACT }
     (s.homographyValid = false ∧ 4 ≤ s.pixels.length ∧
       (s.method = EstimationMethod.EXACT → s.pixels.length = 4)) ∧
     ((generateHomography (fun _ _ => []) (fun _ _ => [])
        (fun _ _ => [[2, 0, 0], [0, 2, 0], [0, 0, 1]]) s).2.homographyValid
          = true ↔
       fittedMat (fun _ _ => []) (fun _ _ => [])
        (fun _ _ => [[2, 0, 0], [0, 2, 0], [0, 0, 1]]) s ≠ [])) := by
  refine ⟨⟨rfl, by norm_num, fun _ => by norm_num⟩, ?_⟩
  exact (C9_generateHomography_guards (fun _ _ => []) (fun _ _ => [])
    (fun _ _ => [[2, 0, 0], [0, 2, 0], [0, 0, 1]])
    { pixels := [((0 : ℚ), 0), (1, 0), (0, 1), (1, 1)],
      worldPoints := [((0 : ℚ), 0), (2, 0), (0, 2), (2, 2)],
      homography := [], homographyValid := false,
      method := EstimationMethod.EXACT }).2.2 rfl (by norm_num)
    (fun _ => by norm_num)

/-! Theorem about RandomAccel2D -/

/-- C10: one `simulateMotion` step performs the discrete
constant-acceleration update: with `dt` the sample period and `(ax, ay)`
the drawn accelerations, `x' = x + dt·vx + (dt²/2)·ax`, `vx' = vx + dt·ax`,
`y' = y + dt·vy + (dt²/2)·ay`, `vy' = vy + dt·ay`; the step is by
definition the matrix form using `createStaticMatracies`' matrices. -/
theorem C10_simulateMotion_kinematics (dt : ℚ) (state : Fin 4 → ℚ)
    (accel_vec : Fin 2 → ℚ) :
    simulateMotion dt state accel_vec 0
      = state 0 + dt * state 1 + dt * dt / 2 * accel_vec 0 ∧
    simulateMotion dt state accel_vec 1 = state 1 + dt * accel_vec 0 ∧
    simulateMotion dt state accel_vec 2
      = state 2 + dt * state 3 + dt * dt / 2 * accel_vec 1 ∧
    simulateMotion dt state accel_vec 3 = state 3 + dt * accel_vec 1 ∧
    simulateMotion dt state accel_vec
      = (state_transition_mat dt).mulVec state
        + (input_mat dt).mulVec accel_vec := by
  refine ⟨?_, ?_, ?_, ?_, rfl⟩ <;>
    simp [simulateMotion, state_transition_mat, input_mat, Matrix.mulVec,
      Matrix.dotProduct, Fin.sum_univ_four, Fin.sum_univ_two]

end Oat
